import Mathlib

/-!
Shallow embedding of the DebToIPA converter (src/main.go): data model,
extraction engine, metadata parser and archive packager, with theorems
checking the specified behaviour against these definitions.
-/

set_option maxHeartbeats 1000000

namespace DebToIPA

/-- Byte strings (Go `[]byte` contents) are modelled as lists of naturals. -/
abbrev Bytes := List Nat

/-- Go strings and paths are modelled as lists of characters. -/
abbrev Str := List Char

/-- Go `strings.TrimSuffix(s, suf)`: drop one trailing occurrence of `suf` when present. -/
def trimSuffixGo (s suf : Str) : Str :=
  if suf.isSuffixOf s then s.take (s.length - suf.length) else s

/-- Go `strings.TrimPrefix(s, pre)`: drop one leading occurrence of `pre` when present. -/
def trimPreGo (s pre : Str) : Str :=
  if pre.isPrefixOf s then s.drop pre.length else s

/-- Go `strings.Index(hay, needle)`: position of the first occurrence of `needle` inside `hay`, `none` when absent (Go returns -1). -/
def indexOfSub (needle : Str) : Str → Option Nat
  | [] => if needle.isPrefixOf ([] : Str) then some 0 else none
  | c :: t =>
    if needle.isPrefixOf (c :: t) then some 0
    else (indexOfSub needle t).map (· + 1)

/-- Go `strings.Contains(hay, needle)`. -/
def containsSub (hay needle : Str) : Bool := (indexOfSub needle hay).isSome

/-- Go `path.Base`: last element of a slash-separated path (trailing slashes removed first). -/
def pathBase (p : Str) : Str :=
  if p = [] then ['.']
  else
    let q := (p.reverse.dropWhile (fun c => c = '/')).reverse
    if q = [] then ['/']
    else (q.reverse.takeWhile (fun c => !(c = '/' : Bool))).reverse

/-- Segment processing of Go `path.Clean`: drop empty and `.` segments, resolve `..` against the output stack (kept when the stack is empty and the path is not rooted, dropped at the root of a rooted path). -/
def cleanSegs (rooted : Bool) : List Str → List Str → List Str
  | acc, [] => acc
  | acc, s :: rest =>
    if s = [] ∨ s = ['.'] then cleanSegs rooted acc rest
    else if s = ['.', '.'] then
      match acc.getLast? with
      | some t =>
        if t = ['.', '.'] then cleanSegs rooted (acc ++ [s]) rest
        else cleanSegs rooted acc.dropLast rest
      | none =>
        if rooted then cleanSegs rooted acc rest
        else cleanSegs rooted (acc ++ [s]) rest
    else cleanSegs rooted (acc ++ [s]) rest

/-- Go `path.Clean` on slash-separated paths, expressed by segment processing (equivalent to the in-place lazybuf algorithm of the `path` package). -/
def pathClean (p : Str) : Str :=
  if p = [] then ['.']
  else
    let rooted := p.head? = some '/'
    let segs := cleanSegs rooted [] (p.splitOn '/')
    let out := List.intercalate ['/'] segs
    if rooted then '/' :: out
    else if out = [] then ['.'] else out

/-- Go `path.Join`: concatenate the non-empty elements with slashes and clean the result; empty when every element is empty. (Go inserts a slash also before empty middle elements; `pathClean` collapses repeated slashes, so the results agree.) -/
def pathJoin (elems : List Str) : Str :=
  let parts := elems.filter (fun e => !(e = [] : Bool))
  if parts = [] then [] else pathClean (List.intercalate ['/'] parts)

/-- Go `filepath.ToSlash` on a Unix host: the separator already is a slash, so this is the identity. -/
def toSlash (p : Str) : Str := p

/-- Go `os.FileMode(mode) & 0777` (src/main.go line 319): truncate the int64 tar mode to uint32 and keep the nine permission bits. -/
def goPerm (m : Int) : Nat := (m % (2 ^ 32)).toNat &&& 511

/-- Compression method of an output zip entry (`zip.Store` / `zip.Deflate`). -/
inductive ZMethod
  | store
  | deflate
  deriving DecidableEq

/-- One entry of the virtual file store (Go struct `VirtualFile`). `data = none` models a nil `Data` slice, `diskPath = none` models an empty `DiskPath` string; a spill file `spill_N` is identified by its counter `N`. -/
structure VirtualFile where
  name : Str
  data : Option Bytes
  diskPath : Option Nat
  mode : Int
  modTime : Nat
  isDir : Bool
  isLink : Bool
  linkDest : Str
  deriving DecidableEq

/-- Permission and type-bit translation of the packager (src/main.go lines 315-362): `(unixFileType, perms, method)` for one store entry, given its final output path and the executable name. -/
def permTriple (vf : VirtualFile) (finalPath exe : Str) : Nat × Nat × ZMethod :=
  let perms := goPerm vf.mode
  if vf.isLink then
    (0xA000, 0o777, ZMethod.store)
  else if vf.isDir then
    (0x4000, if perms = 0 then 0o755 else perms, ZMethod.store)
  else
    let isMainBinary := pathBase finalPath = exe
    let perms1 :=
      if isMainBinary ∨ ".dylib".toList.isSuffixOf finalPath = true ∨
          containsSub finalPath "/bin/".toList = true then 0o755
      else if perms = 0 then 0o644 else perms
    (0x8000, perms1, if isMainBinary then ZMethod.store else ZMethod.deflate)

/-- Body written for one zip entry: nothing for directories, the link target for symlinks, the owned buffer or the spill file for regular files. -/
inductive ZipBody
  | dirBody
  | linkBody (dest : Str)
  | ramBody (bs : Bytes)
  | diskBody (spill : Nat)
  deriving DecidableEq

/-- One entry of the output archive, with the fields the converter sets on `zip.FileHeader` plus the body source. -/
structure ZipEntry where
  name : Str
  method : ZMethod
  modTime : Nat
  externalAttrs : Nat
  body : ZipBody
  deriving DecidableEq

/-- Final output path of a store entry (src/main.go lines 291-307): strip the app-root, join under `Payload/<folder>`, append a slash for directories. -/
def finalPathOf (pfx folder : Str) (vf : VirtualFile) : Str :=
  let rel := trimPreGo (toSlash vf.name) pfx
  let fp := pathJoin ["Payload".toList, folder, rel]
  if vf.isDir then fp ++ ['/'] else fp

/-- Construction of the zip entry for one store entry that passed the app-root filter (src/main.go lines 298-383). `externalAttrs` is computed in uint32 arithmetic, hence the reduction mod 2^32. -/
def emitEntry (pfx folder exe : Str) (vf : VirtualFile) : ZipEntry :=
  let finalPath := finalPathOf pfx folder vf
  let t := permTriple vf finalPath exe
  { name := finalPath
    method := t.2.2
    modTime := vf.modTime
    externalAttrs := ((t.1 ||| t.2.1) <<< 16) % 2 ^ 32
    body :=
      if vf.isLink then ZipBody.linkBody vf.linkDest
      else if vf.isDir then ZipBody.dirBody
      else
        match vf.diskPath with
        | some n => ZipBody.diskBody n
        | none => ZipBody.ramBody (vf.data.getD []) }

/-- Packaging of one store entry: `none` when the app-root filter skips it (src/main.go lines 293-296). -/
def packEntry (pfx folder exe : Str) (vf : VirtualFile) : Option ZipEntry :=
  if pfx.isPrefixOf (toSlash vf.name) then some (emitEntry pfx folder exe vf) else none

/-- The packager loop over the virtual file store (src/main.go lines 290-384). -/
def packFiles (pfx folder exe : Str) : List VirtualFile → List ZipEntry
  | [] => []
  | vf :: rest =>
    match packEntry pfx folder exe vf with
    | some z => z :: packFiles pfx folder exe rest
    | none => packFiles pfx folder exe rest

/-- Tar entry type flags the converter distinguishes; `other` stands for every other flag. -/
inductive TarType
  | dir
  | reg
  | symlink
  | other
  deriving DecidableEq

/-- One entry of the decompressed tar stream: the header fields the converter reads plus the entry's bytes. `size` is the declared header size, `fileData` the actual bytes (equal for a well-formed stream). -/
structure TarEntry where
  name : Str
  mode : Int
  size : Nat
  fileData : Bytes
  typeflag : TarType
  linkname : Str
  modTime : Nat
  deriving DecidableEq

/-- The 2 GiB RAM ceiling (src/main.go line 25). -/
def MaxMemoryUsage : Nat := 2 * 1024 * 1024 * 1024

/-- State threaded through the extraction loop (src/main.go lines 143-154). -/
structure ExtractState where
  files : List VirtualFile
  currentRamUsage : Nat
  totalSize : Nat
  spillCount : Nat
  appRoot : Option Str
  infoPlistData : Option Bytes
  deriving DecidableEq

/-- The substring that marks the app root. -/
def appNeedle : Str := ".app/".toList

/-- App-root detection for one entry name (src/main.go lines 172-177): record everything up to and including the first `.app/`, at most once. -/
def appDetectStep (cur : Option Str) (nm : Str) : Option Str :=
  match cur with
  | some p => some p
  | none =>
    match indexOfSub appNeedle nm with
    | some idx => some (nm.take (idx + 5))
    | none => none

/-- Extraction state before the first tar entry. -/
def initState : ExtractState :=
  { files := [], currentRamUsage := 0, totalSize := 0, spillCount := 0,
    appRoot := none, infoPlistData := none }

/-- The metadata file name suffix. -/
def plistNeedle : Str := "Info.plist".toList

/-- Processing of one tar entry (src/main.go lines 156-228): app-root detection, classification, the RAM/spill decision and metadata capture. In the spill branch the Go variable `data` stays nil, so the capture test sees length 0 there. -/
def extractStep (st0 : ExtractState) (e : TarEntry) : ExtractState :=
  let st := { st0 with appRoot := appDetectStep st0.appRoot e.name }
  let base : VirtualFile :=
    { name := e.name, data := none, diskPath := none, mode := e.mode,
      modTime := e.modTime, isDir := decide (e.typeflag = TarType.dir),
      isLink := false, linkDest := [] }
  match e.typeflag with
  | TarType.symlink =>
    { st with files := st.files ++ [{ base with isLink := true, linkDest := e.linkname }] }
  | TarType.reg =>
    let st1 := { st with totalSize := st.totalSize + e.size }
    let pl :=
      if st1.currentRamUsage + e.size < MaxMemoryUsage then
        ({ st1 with currentRamUsage := st1.currentRamUsage + e.fileData.length },
         { base with data := some e.fileData }, e.fileData)
      else
        ({ st1 with spillCount := st1.spillCount + 1 },
         { base with diskPath := some (st1.spillCount + 1) }, ([] : Bytes))
    let st2 := pl.1
    let st3 :=
      if plistNeedle.isSuffixOf e.name = true ∧ pl.2.2.length > 0
      then { st2 with infoPlistData := some pl.2.2 } else st2
    { st3 with files := st3.files ++ [pl.2.1] }
  | TarType.dir =>
    { st with files := st.files ++ [base] }
  | TarType.other => st

/-- The extraction pass over the whole tar stream. -/
def extract (es : List TarEntry) : ExtractState := es.foldl extractStep initState

/-- Result of the external `encoding/xml` unmarshal of an Info.plist: the two parallel lists of `<key>` and `<string>` elements (Go struct `PlistDict`). -/
structure PlistDict where
  keys : List Str
  strs : List Str
  deriving DecidableEq

/-- The metadata derived for the app (executable name, bundle id, version, app folder name). -/
structure AppMeta where
  executableName : Str
  bundleID : Str
  version : Str
  appNameFolder : Str
  deriving DecidableEq

/-- One iteration of the key/value loop (src/main.go lines 247-261): the accumulator is `(executableName, bundleID, version)`. -/
def metaKeyStep (acc : Str × Str × Str) (p : Str × Str) : Str × Str × Str :=
  let e := if p.1 = "CFBundleExecutable".toList then p.2 else acc.1
  let b := if p.1 = "CFBundleIdentifier".toList then p.2 else acc.2.1
  let v :=
    if p.1 = "CFBundleVersion".toList ∨ p.1 = "CFBundleShortVersionString".toList
    then p.2 else acc.2.2
  (e, b, v)

/-- Metadata parsing (src/main.go lines 239-270): pair the i-th key with the i-th string (`zip` models the loop's break at the shorter list); `dict = none` models absent or malformed plist data, leaving every field at its default. The executable name falls back to the app folder name without its `.app` suffix. -/
def parseMetadata (dict : Option PlistDict) (root : Str) : AppMeta :=
  let ini := (("".toList : Str), "Unknown".toList, "Unknown".toList)
  let ebv :=
    match dict with
    | some d => (d.keys.zip d.strs).foldl metaKeyStep ini
    | none => ini
  let folder := pathBase (toSlash root)
  let e := if ebv.1 = [] then trimSuffixGo folder ".app".toList else ebv.1
  { executableName := e, bundleID := ebv.2.1, version := ebv.2.2, appNameFolder := folder }

/-- Terminal errors of the conversion that the claims mention. -/
inductive ConvError
  | unsupportedCompression
  | noDataFound
  | appRootNotFound
  deriving DecidableEq

/-- The four decompression codecs the dispatcher can select. -/
inductive Codec
  | gzipC
  | lzmaC
  | bzip2C
  | xzC
  deriving DecidableEq

/-- One member of the outer ar archive, given together with the tar entries its decompressed payload yields (the codecs themselves are external collaborators). -/
structure ArMember where
  name : Str
  entries : List TarEntry
  deriving DecidableEq

/-- Compression dispatch (src/main.go lines 105-117): select the decoder by exact member-name suffix, in the source's test order. -/
def dispatch (nm : Str) : Except ConvError Codec :=
  if ".gz".toList.isSuffixOf nm then Except.ok Codec.gzipC
  else if ".lzma".toList.isSuffixOf nm then Except.ok Codec.lzmaC
  else if ".bzip2".toList.isSuffixOf nm then Except.ok Codec.bzip2C
  else if ".xz".toList.isSuffixOf nm then Except.ok Codec.xzC
  else Except.error ConvError.unsupportedCompression

/-- The `data.tar` member search (src/main.go lines 91-123): first member whose name starts with `data.tar`. -/
def findDataTar (ms : List ArMember) : Option ArMember :=
  ms.find? (fun m => "data.tar".toList.isPrefixOf m.name)

/-- The conversion's output value: the path of the created `.ipa` file and its entries. -/
structure ConvOutput where
  ipaPath : Str
  entries : List ZipEntry
  deriving DecidableEq

/-- Output path computation (src/main.go line 276). -/
def ipaPathOf (debPath : Str) : Str :=
  trimSuffixGo debPath ".deb".toList ++ ".ipa".toList

/-- Model of `convert` (src/main.go lines 73-387). `decodeXml` stands for the external `encoding/xml` unmarshaller (`none` = unmarshal error). The output file is created only after every earlier stage succeeded, so a failing stage yields no output value. -/
def convert (decodeXml : Bytes → Option PlistDict) (debPath : Str)
    (members : List ArMember) : Except ConvError ConvOutput :=
  match findDataTar members with
  | none => Except.error ConvError.noDataFound
  | some m =>
    match dispatch m.name with
    | Except.error e => Except.error e
    | Except.ok _ =>
      let st := extract m.entries
      match st.appRoot with
      | none => Except.error ConvError.appRootNotFound
      | some root =>
        let dict :=
          match st.infoPlistData with
          | some bs => if bs.length > 0 then decodeXml bs else none
          | none => none
        let meta := parseMetadata dict root
        Except.ok { ipaPath := ipaPathOf debPath,
                    entries := packFiles (toSlash root) meta.appNameFolder
                      meta.executableName st.files }

/-- Replay of the per-entry RAM/spill decision as a pure function of the running RAM counter: each entry of the result carries `true` when the converter holds it in RAM. Entries that are not regular files carry `false` (the flag is only consulted for regular files). -/
def annotate (ram : Nat) : List TarEntry → List (TarEntry × Bool)
  | [] => []
  | e :: es =>
    match e.typeflag with
    | TarType.reg =>
      if ram + e.size < MaxMemoryUsage then
        (e, true) :: annotate (ram + e.fileData.length) es
      else (e, false) :: annotate ram es
    | _ => (e, false) :: annotate ram es

/-- An annotated entry qualifies for metadata capture when it is a regular file whose name ends in `Info.plist`, held in RAM, with a non-empty buffer. -/
def plistQual (p : TarEntry × Bool) : Bool :=
  decide (p.1.typeflag = TarType.reg ∧ plistNeedle.isSuffixOf p.1.name = true ∧
    p.2 = true ∧ 0 < p.1.fileData.length)

/-! Helper lemmas shared by the theorems below. -/

lemma appDetect_foldl_some (ns : List Str) (p : Str) :
    ns.foldl appDetectStep (some p) = some p := by
  induction ns with
  | nil => rfl
  | cons n ns ih => simpa [appDetectStep] using ih

lemma extractStep_appRoot (st : ExtractState) (e : TarEntry) :
    (extractStep st e).appRoot = appDetectStep st.appRoot e.name := by
  cases h : e.typeflag <;> simp [extractStep, h]
  split <;> split <;> rfl

lemma extract_appRoot_fold (es : List TarEntry) :
    ∀ st : ExtractState,
      (es.foldl extractStep st).appRoot = (es.map TarEntry.name).foldl appDetectStep st.appRoot := by
  induction es with
  | nil => intro st; rfl
  | cons e es ih =>
    intro st
    simp only [List.foldl_cons, List.map_cons]
    rw [ih, extractStep_appRoot]

lemma appDetect_fold_spec (ns : List Str) :
    ns.foldl appDetectStep none =
      (ns.find? (fun nm => containsSub nm appNeedle)).bind
        (fun nm => (indexOfSub appNeedle nm).map (fun i => nm.take (i + 5))) := by
  induction ns with
  | nil => rfl
  | cons n ns ih =>
    cases h : indexOfSub appNeedle n with
    | some i =>
      have h1 : appDetectStep none n = some (n.take (i + 5)) := by
        simp [appDetectStep, h]
      simp [List.find?_cons, containsSub, h, h1, appDetect_foldl_some]
    | none =>
      have h1 : appDetectStep none n = none := by simp [appDetectStep, h]
      simp [List.find?_cons, containsSub, h, h1, ih]

lemma extractStep_files_name (st : ExtractState) (e : TarEntry) :
    (extractStep st e).files.map (fun vf => vf.name) =
      st.files.map (fun vf => vf.name) ++
        (if e.typeflag = TarType.other then [] else [e.name]) := by
  cases h : e.typeflag <;> simp [extractStep, h]
  split <;> split <;> simp

lemma extract_files_name (es : List TarEntry) :
    ∀ st : ExtractState,
      ((es.foldl extractStep st).files).map (fun vf => vf.name) =
        st.files.map (fun vf => vf.name) ++
          (es.filter (fun e => !decide (e.typeflag = TarType.other))).map TarEntry.name := by
  induction es with
  | nil => intro st; simp
  | cons e es ih =>
    intro st
    simp only [List.foldl_cons]
    rw [ih, extractStep_files_name]
    by_cases h : e.typeflag = TarType.other <;> simp [h, List.filter_cons]

lemma metaFold_exec (ps : List (Str × Str)) (a : Str × Str × Str) :
    (ps.foldl metaKeyStep a).1 =
      (((ps.filter (fun p => decide (p.1 = "CFBundleExecutable".toList))).getLast?).map
        Prod.snd).getD a.1 := by
  induction ps generalizing a with
  | nil => rfl
  | cons p ps ih =>
    rw [List.foldl_cons, ih, List.filter_cons]
    by_cases h : p.1 = "CFBundleExecutable".toList
    · have hm : (metaKeyStep a p).1 = p.2 := by
        simp only [metaKeyStep]
        rw [if_pos h]
      rw [if_pos (by simpa using h), List.getLast?_cons]
      cases hl : (ps.filter
          (fun p => decide (p.1 = "CFBundleExecutable".toList))).getLast? with
      | none => simp [hm]
      | some q => simp [hm]
    · have hm : (metaKeyStep a p).1 = a.1 := by
        simp only [metaKeyStep]
        rw [if_neg h]
      rw [if_neg (by simpa using h), hm]

lemma metaFold_bid (ps : List (Str × Str)) (a : Str × Str × Str) :
    (ps.foldl metaKeyStep a).2.1 =
      (((ps.filter (fun p => decide (p.1 = "CFBundleIdentifier".toList))).getLast?).map
        Prod.snd).getD a.2.1 := by
  induction ps generalizing a with
  | nil => rfl
  | cons p ps ih =>
    rw [List.foldl_cons, ih, List.filter_cons]
    by_cases h : p.1 = "CFBundleIdentifier".toList
    · have hm : (metaKeyStep a p).2.1 = p.2 := by
        simp only [metaKeyStep]
        rw [if_pos h]
      rw [if_pos (by simpa using h), List.getLast?_cons]
      cases hl : (ps.filter
          (fun p => decide (p.1 = "CFBundleIdentifier".toList))).getLast? with
      | none => simp [hm]
      | some q => simp [hm]
    · have hm : (metaKeyStep a p).2.1 = a.2.1 := by
        simp only [metaKeyStep]
        rw [if_neg h]
      rw [if_neg (by simpa using h), hm]

lemma metaFold_ver (ps : List (Str × Str)) (a : Str × Str × Str) :
    (ps.foldl metaKeyStep a).2.2 =
      (((ps.filter (fun p => decide (p.1 = "CFBundleVersion".toList ∨
          p.1 = "CFBundleShortVersionString".toList))).getLast?).map
        Prod.snd).getD a.2.2 := by
  induction ps generalizing a with
  | nil => rfl
  | cons p ps ih =>
    rw [List.foldl_cons, ih, List.filter_cons]
    by_cases h : p.1 = "CFBundleVersion".toList ∨ p.1 = "CFBundleShortVersionString".toList
    · have hm : (metaKeyStep a p).2.2 = p.2 := by
        simp only [metaKeyStep]
        rw [if_pos h]
      rw [if_pos (by simpa using h), List.getLast?_cons]
      cases hl : (ps.filter (fun p => decide (p.1 = "CFBundleVersion".toList ∨
          p.1 = "CFBundleShortVersionString".toList))).getLast? with
      | none => simp [hm]
      | some q => simp [hm]
    · have hm : (metaKeyStep a p).2.2 = a.2.2 := by
        simp only [metaKeyStep]
        rw [if_neg h]
      rw [if_neg (by simpa using h), hm]

lemma zip_take_take (l1 : List Str) (l2 : List Str) :
    l1.zip l2 = (l1.take l2.length).zip (l2.take l1.length) := by
  induction l1 generalizing l2 with
  | nil => simp
  | cons x l1 ih =>
    cases l2 with
    | nil => simp
    | cons y l2 => simp [List.zip_cons_cons, ih l2]

lemma goPerm_lt (m : Int) : goPerm m < 512 := by
  unfold goPerm
  have h9 : (511 : Nat) = 2 ^ 9 - 1 := by norm_num
  rw [h9, Nat.and_pow_two_sub_one_eq_mod]
  exact Nat.mod_lt _ (by norm_num)

lemma goPerm_eq (m : Int) (h0 : 0 ≤ m) (h1 : m < 512) : goPerm m = m.toNat := by
  unfold goPerm
  rw [Int.emod_eq_of_lt h0 (by norm_num; omega : m < 2 ^ 32)]
  have h9 : (511 : Nat) = 2 ^ 9 - 1 := by norm_num
  rw [h9, Nat.and_pow_two_sub_one_eq_mod]
  exact Nat.mod_eq_of_lt (by omega)

lemma permTriple_fst_lt (vf : VirtualFile) (fp exe : Str) :
    (permTriple vf fp exe).1 < 2 ^ 16 := by
  unfold permTriple
  cases hL : vf.isLink <;> cases hD : vf.isDir <;> simp [hL, hD]

lemma permTriple_snd_lt (vf : VirtualFile) (fp exe : Str) :
    (permTriple vf fp exe).2.1 < 2 ^ 16 := by
  have hg := goPerm_lt vf.mode
  unfold permTriple
  cases hL : vf.isLink <;> cases hD : vf.isDir <;> simp [hL, hD]
  all_goals repeat' split
  all_goals omega

/-! Theorems for the claims. -/

/-- C10: for every input path, the output archive path is the input path with one trailing `.deb` removed when present, then `.ipa` appended; a successful conversion reports exactly that path, and whether (and how) the conversion fails does not depend on the input path, so a non-`.deb` input path causes no failure. -/
theorem ipa_output_path_spec :
    (∀ p : Str,
      ipaPathOf p =
        (if ".deb".toList.isSuffixOf p = true then p.take (p.length - 4) else p) ++
          ".ipa".toList) ∧
    (∀ (dx : Bytes → Option PlistDict) (p : Str) (ms : List ArMember),
      (convert dx p ms).map ConvOutput.ipaPath =
        (convert dx p ms).map (fun _ => ipaPathOf p)) ∧
    (∀ (dx : Bytes → Option PlistDict) (p q : Str) (ms : List ArMember) (e : ConvError),
      convert dx p ms = Except.error e ↔ convert dx q ms = Except.error e) := by
  refine ⟨?_, ?_, ?_⟩
  · intro p
    have h4 : (".deb".toList : Str).length = 4 := rfl
    by_cases h : ".deb".toList.isSuffixOf p = true <;>
      simp [ipaPathOf, trimSuffixGo, h, h4]
  · intro dx p ms
    unfold convert
    cases hf : findDataTar ms with
    | none => rfl
    | some m =>
      cases hd : dispatch m.name with
      | error e => simp [hd, Except.map]
      | ok c =>
        cases hr : (extract m.entries).appRoot with
        | none => simp [hd, hr, Except.map]
        | some root => simp [hd, hr, Except.map]
  · intro dx p q ms e
    unfold convert
    cases hf : findDataTar ms with
    | none => exact Iff.rfl
    | some m =>
      cases hd : dispatch m.name with
      | error e' => simp [hd]
      | ok c =>
        cases hr : (extract m.entries).appRoot with
        | none => simp [hd, hr]
        | some root =>
          simp only [hd, hr]
          exact ⟨fun h => by simp at h, fun h => by simp at h⟩

/-- C8: the entries emitted to the output archive are exactly the app-root-filtered subsequence of the virtual file store, in store order, and the store lists the classified entries in traversal order; no reordering happens at either stage. -/
theorem pack_order_spec :
    (∀ (pfx folder exe : Str) (fs : List VirtualFile),
      packFiles pfx folder exe fs =
        (fs.filter (fun vf => pfx.isPrefixOf (toSlash vf.name))).map
          (emitEntry pfx folder exe)) ∧
    (∀ es : List TarEntry,
      (extract es).files.map (fun vf => vf.name) =
        (es.filter (fun e => !decide (e.typeflag = TarType.other))).map TarEntry.name) := by
  constructor
  · intro pfx folder exe fs
    induction fs with
    | nil => rfl
    | cons vf rest ih =>
      cases h : pfx.isPrefixOf (toSlash vf.name) <;>
        simp [packFiles, packEntry, h, List.filter_cons, ih]
  · intro es
    have := extract_files_name es initState
    simpa [extract, initState] using this

/-- C7: the metadata parser reads the pairs of the i-th key with the i-th string value (later pairs overwrite earlier ones, pairs beyond the shorter list are never read), recognizes the four CFBundle keys with `Unknown` defaults, treats malformed input as defaults, and falls back to the app folder's base name without `.app` whenever the executable name comes out empty. -/
theorem parse_metadata_spec :
    (∀ (d : PlistDict) (root : Str),
      (parseMetadata (some d) root).bundleID =
        ((((d.keys.zip d.strs).filter
            (fun p => decide (p.1 = "CFBundleIdentifier".toList))).getLast?).map
          Prod.snd).getD "Unknown".toList) ∧
    (∀ (d : PlistDict) (root : Str),
      (parseMetadata (some d) root).version =
        ((((d.keys.zip d.strs).filter
            (fun p => decide (p.1 = "CFBundleVersion".toList ∨
              p.1 = "CFBundleShortVersionString".toList))).getLast?).map
          Prod.snd).getD "Unknown".toList) ∧
    (∀ (d : PlistDict) (root : Str),
      (parseMetadata (some d) root).executableName =
        (if ((((d.keys.zip d.strs).filter
              (fun p => decide (p.1 = "CFBundleExecutable".toList))).getLast?).map
            Prod.snd).getD [] = ([] : Str)
         then trimSuffixGo (pathBase (toSlash root)) ".app".toList
         else ((((d.keys.zip d.strs).filter
              (fun p => decide (p.1 = "CFBundleExecutable".toList))).getLast?).map
            Prod.snd).getD [])) ∧
    (∀ root : Str,
      parseMetadata none root =
        { executableName := trimSuffixGo (pathBase (toSlash root)) ".app".toList,
          bundleID := "Unknown".toList, version := "Unknown".toList,
          appNameFolder := pathBase (toSlash root) }) ∧
    (∀ (keys strs : List Str) (root : Str),
      parseMetadata (some { keys := keys, strs := strs }) root =
        parseMetadata (some { keys := keys.take strs.length,
                              strs := strs.take keys.length }) root) := by
  refine ⟨?_, ?_, ?_, ?_, ?_⟩
  · intro d root
    simp only [parseMetadata]
    exact metaFold_bid (d.keys.zip d.strs) _
  · intro d root
    simp only [parseMetadata]
    exact metaFold_ver (d.keys.zip d.strs) _
  · intro d root
    simp only [parseMetadata]
    rw [metaFold_exec (d.keys.zip d.strs)]
    cases hl : ((d.keys.zip d.strs).filter
        (fun p => decide (p.1 = "CFBundleExecutable".toList))).getLast? with
    | none => simp [hl]
    | some q =>
      simp only [hl, Option.map_some, Option.getD_some]
      by_cases hq : q.2 = ([] : Str) <;> simp [hq]
  · intro root
    rfl
  · intro keys strs root
    simp only [parseMetadata]
    rw [zip_take_take keys strs]

/-- C5: the recorded app root is the prefix, up to and including the first `.app/`, of the first entry in traversal order whose name contains `.app/` — a search over every entry name regardless of type, in which the first match wins. -/
theorem app_root_first_spec (es : List TarEntry) :
    (extract es).appRoot =
      ((es.map TarEntry.name).find? (fun nm => containsSub nm appNeedle)).bind
        (fun nm => (indexOfSub appNeedle nm).map (fun i => nm.take (i + 5))) := by
  rw [extract, extract_appRoot_fold]
  exact appDetect_fold_spec _

/-- C1: the `(typeBits, permBits, method)` triple applied to each emitted entry is a pure function of kind, source mode (its nine permission bits), main-executable status and output path: symlinks get `(0xA000, 0777, Store)`; directories `(0x4000, mode or 0755, Store)`; the main executable (output base name equal to the executable name) `(0x8000, 0755, Store)`; other regular files ending in `.dylib` or containing `/bin/` `(0x8000, 0755, Deflate)`; all remaining regular files `(0x8000, mode or 0644, Deflate)` — and the emitted entry's method is exactly the triple's method. -/
theorem perm_algebra_spec :
    (∀ (vf : VirtualFile) (fp exe : Str), 0 ≤ vf.mode → vf.mode < 512 →
      ((vf.isLink = true → permTriple vf fp exe = (0xA000, 0o777, ZMethod.store)) ∧
       (vf.isLink = false → vf.isDir = true →
          permTriple vf fp exe =
            (0x4000, if vf.mode = 0 then 0o755 else vf.mode.toNat, ZMethod.store)) ∧
       (vf.isLink = false → vf.isDir = false → pathBase fp = exe →
          permTriple vf fp exe = (0x8000, 0o755, ZMethod.store)) ∧
       (vf.isLink = false → vf.isDir = false → ¬ pathBase fp = exe →
          (".dylib".toList.isSuffixOf fp = true ∨ containsSub fp "/bin/".toList = true) →
          permTriple vf fp exe = (0x8000, 0o755, ZMethod.deflate)) ∧
       (vf.isLink = false → vf.isDir = false → ¬ pathBase fp = exe →
          ".dylib".toList.isSuffixOf fp = false → containsSub fp "/bin/".toList = false →
          permTriple vf fp exe =
            (0x8000, if vf.mode = 0 then 0o644 else vf.mode.toNat, ZMethod.deflate)))) ∧
    (∀ (pfx folder exe : Str) (vf : VirtualFile) (z : ZipEntry),
      packEntry pfx folder exe vf = some z →
      z.method = (permTriple vf (finalPathOf pfx folder vf) exe).2.2) := by
  constructor
  · intro vf fp exe h0 h1
    have hp : goPerm vf.mode = vf.mode.toNat := goPerm_eq vf.mode h0 h1
    refine ⟨?_, ?_, ?_, ?_, ?_⟩
    · intro hL
      simp only [permTriple]
      rw [hL, if_pos rfl]
    · intro hL hD
      simp only [permTriple]
      rw [hL, if_neg (by decide), hD, if_pos rfl, hp]
      by_cases hm : vf.mode = 0
      · rw [if_pos (by omega : vf.mode.toNat = 0), if_pos hm]
      · rw [if_neg (by omega : ¬ vf.mode.toNat = 0), if_neg hm]
    · intro hL hD hMain
      simp only [permTriple]
      rw [hL, if_neg (by decide), hD, if_neg (by decide),
        if_pos (Or.inl hMain), if_pos hMain]
    · intro hL hD hMain hOr
      simp only [permTriple]
      rw [hL, if_neg (by decide), hD, if_neg (by decide),
        if_pos (Or.inr hOr), if_neg hMain]
    · intro hL hD hMain hSuf hCon
      have hneg : ¬ (pathBase fp = exe ∨ ".dylib".toList.isSuffixOf fp = true ∨
          containsSub fp "/bin/".toList = true) := by
        rintro (h | h | h)
        · exact hMain h
        · rw [hSuf] at h; exact Bool.noConfusion h
        · rw [hCon] at h; exact Bool.noConfusion h
      simp only [permTriple]
      rw [hL, if_neg (by decide), hD, if_neg (by decide), if_neg hneg, if_neg hMain, hp]
      by_cases hm : vf.mode = 0
      · rw [if_pos (by omega : vf.mode.toNat = 0), if_pos hm]
      · rw [if_neg (by omega : ¬ vf.mode.toNat = 0), if_neg hm]
  · intro pfx folder exe vf z hz
    unfold packEntry at hz
    cases hpre : pfx.isPrefixOf (toSlash vf.name) with
    | false => rw [hpre] at hz; simp at hz
    | true =>
      rw [hpre] at hz
      simp only [if_true] at hz
      injection hz with hz
      rw [← hz]
      rfl

/-- Witness for C1: each case of the table exercised at a concrete entry, and the method of a concretely emitted entry. -/
theorem perm_algebra_spec_w :
    (permTriple
      { name := "Foo.app/lk".toList, data := none, diskPath := none, mode := 420,
        modTime := 0, isDir := false, isLink := true, linkDest := "t".toList }
      "Payload/Foo.app/lk".toList "Foo".toList = (0xA000, 0o777, ZMethod.store)) ∧
    (permTriple
      { name := "Foo.app/d".toList, data := none, diskPath := none, mode := 0,
        modTime := 0, isDir := true, isLink := false, linkDest := [] }
      "Payload/Foo.app/d/".toList "Foo".toList =
        (0x4000, if (0 : Int) = 0 then 0o755 else (0 : Int).toNat, ZMethod.store)) ∧
    (permTriple
      { name := "Foo.app/Foo".toList, data := some [1], diskPath := none, mode := 420,
        modTime := 0, isDir := false, isLink := false, linkDest := [] }
      "Payload/Foo.app/Foo".toList "Foo".toList = (0x8000, 0o755, ZMethod.store)) ∧
    (permTriple
      { name := "Foo.app/lib.dylib".toList, data := some [1], diskPath := none, mode := 420,
        modTime := 0, isDir := false, isLink := false, linkDest := [] }
      "Payload/Foo.app/lib.dylib".toList "Foo".toList = (0x8000, 0o755, ZMethod.deflate)) ∧
    (permTriple
      { name := "Foo.app/x.txt".toList, data := some [1], diskPath := none, mode := 420,
        modTime := 0, isDir := false, isLink := false, linkDest := [] }
      "Payload/Foo.app/x.txt".toList "Foo".toList =
        (0x8000, if (420 : Int) = 0 then 0o644 else (420 : Int).toNat, ZMethod.deflate)) ∧
    ((emitEntry "Foo.app/".toList "Foo.app".toList "Foo".toList
      { name := "Foo.app/x.txt".toList, data := some [1], diskPath := none, mode := 420,
        modTime := 0, isDir := false, isLink := false, linkDest := [] }).method =
      (permTriple
        { name := "Foo.app/x.txt".toList, data := some [1], diskPath := none, mode := 420,
          modTime := 0, isDir := false, isLink := false, linkDest := [] }
        (finalPathOf "Foo.app/".toList "Foo.app".toList
          { name := "Foo.app/x.txt".toList, data := some [1], diskPath := none, mode := 420,
            modTime := 0, isDir := false, isLink := false, linkDest := [] })
        "Foo".toList).2.2) := by
  refine ⟨?_, ?_, ?_, ?_, ?_, ?_⟩
  · exact (perm_algebra_spec.1 _ _ _ (by decide) (by decide)).1 rfl
  · exact (perm_algebra_spec.1 _ _ _ (by decide) (by decide)).2.1 rfl rfl
  · exact (perm_algebra_spec.1 _ _ _ (by decide) (by decide)).2.2.1 rfl rfl (by decide)
  · exact (perm_algebra_spec.1 _ _ _ (by decide) (by decide)).2.2.2.1 rfl rfl
      (by decide) (Or.inl (by decide))
  · exact (perm_algebra_spec.1 _ _ _ (by decide) (by decide)).2.2.2.2 rfl rfl
      (by decide) (by decide) (by decide)
  · exact perm_algebra_spec.2 _ _ _ _ _ (by decide)

/-- C2: the external-attributes field of every emitted entry is bit-exactly `(typeBits ||| permBits) <<< 16` for the triple of the permission algebra, with no uint32 truncation, and it fits in 32 bits. -/
theorem external_attrs_spec :
    ∀ (pfx folder exe : Str) (vf : VirtualFile) (z : ZipEntry),
      packEntry pfx folder exe vf = some z →
      z.externalAttrs =
        ((permTriple vf (finalPathOf pfx folder vf) exe).1 |||
          (permTriple vf (finalPathOf pfx folder vf) exe).2.1) <<< 16 ∧
      z.externalAttrs < 2 ^ 32 := by
  intro pfx folder exe vf z hz
  unfold packEntry at hz
  cases hpre : pfx.isPrefixOf (toSlash vf.name) with
  | false => rw [hpre] at hz; simp at hz
  | true =>
    rw [hpre] at hz
    simp only [if_true] at hz
    injection hz with hz
    rw [← hz]
    have h1 := permTriple_fst_lt vf (finalPathOf pfx folder vf) exe
    have h2 := permTriple_snd_lt vf (finalPathOf pfx folder vf) exe
    have hor := Nat.or_lt_two_pow h1 h2
    have hlt : (((permTriple vf (finalPathOf pfx folder vf) exe).1 |||
        (permTriple vf (finalPathOf pfx folder vf) exe).2.1) <<< 16) < 2 ^ 32 := by
      rw [Nat.shiftLeft_eq]
      calc _ < 2 ^ 16 * 2 ^ 16 := by
              exact Nat.mul_lt_mul_of_lt_of_le hor (le_refl _) (by norm_num)
           _ = 2 ^ 32 := by norm_num
    constructor
    · exact Nat.mod_eq_of_lt hlt
    · show (_ % 2 ^ 32) < 2 ^ 32
      exact Nat.mod_lt _ (by norm_num)

/-- Witness for C2: the external attributes of a concretely emitted regular file. -/
theorem external_attrs_spec_w :
    (emitEntry "Foo.app/".toList "Foo.app".toList "Foo".toList
      { name := "Foo.app/x.txt".toList, data := some [1], diskPath := none, mode := 420,
        modTime := 0, isDir := false, isLink := false, linkDest := [] }).externalAttrs =
      ((permTriple
        { name := "Foo.app/x.txt".toList, data := some [1], diskPath := none, mode := 420,
          modTime := 0, isDir := false, isLink := false, linkDest := [] }
        (finalPathOf "Foo.app/".toList "Foo.app".toList
          { name := "Foo.app/x.txt".toList, data := some [1], diskPath := none, mode := 420,
            modTime := 0, isDir := false, isLink := false, linkDest := [] })
        "Foo".toList).1 |||
       (permTriple
        { name := "Foo.app/x.txt".toList, data := some [1], diskPath := none, mode := 420,
          modTime := 0, isDir := false, isLink := false, linkDest := [] }
        (finalPathOf "Foo.app/".toList "Foo.app".toList
          { name := "Foo.app/x.txt".toList, data := some [1], diskPath := none, mode := 420,
            modTime := 0, isDir := false, isLink := false, linkDest := [] })
        "Foo".toList).2.1) <<< 16 ∧
    (emitEntry "Foo.app/".toList "Foo.app".toList "Foo".toList
      { name := "Foo.app/x.txt".toList, data := some [1], diskPath := none, mode := 420,
        modTime := 0, isDir := false, isLink := false, linkDest := [] }).externalAttrs < 2 ^ 32 :=
  external_attrs_spec "Foo.app/".toList "Foo.app".toList "Foo".toList
    { name := "Foo.app/x.txt".toList, data := some [1], diskPath := none, mode := 420,
      modTime := 0, isDir := false, isLink := false, linkDest := [] }
    (emitEntry "Foo.app/".toList "Foo.app".toList "Foo".toList
      { name := "Foo.app/x.txt".toList, data := some [1], diskPath := none, mode := 420,
        modTime := 0, isDir := false, isLink := false, linkDest := [] })
    (by decide)

lemma extractStep_reg_ram (st : ExtractState) (e : TarEntry)
    (h : e.typeflag = TarType.reg)
    (hin : st.currentRamUsage + e.size < MaxMemoryUsage) :
    (extractStep st e).files = st.files ++
        [{ name := e.name, data := some e.fileData, diskPath := none, mode := e.mode,
           modTime := e.modTime, isDir := false, isLink := false, linkDest := [] }] ∧
    (extractStep st e).currentRamUsage = st.currentRamUsage + e.fileData.length ∧
    (extractStep st e).spillCount = st.spillCount ∧
    ((plistNeedle.isSuffixOf e.name = true ∧ 0 < e.fileData.length →
        (extractStep st e).infoPlistData = some e.fileData) ∧
      (¬ (plistNeedle.isSuffixOf e.name = true ∧ 0 < e.fileData.length) →
        (extractStep st e).infoPlistData = st.infoPlistData)) := by
  simp only [extractStep, h]
  rw [if_pos hin]
  dsimp only
  by_cases hc : plistNeedle.isSuffixOf e.name = true ∧ 0 < e.fileData.length
  · rw [if_pos hc]
    exact ⟨rfl, rfl, rfl, fun _ => rfl, fun hn => absurd hc hn⟩
  · rw [if_neg hc]
    exact ⟨rfl, rfl, rfl, fun hcc => absurd hcc hc, fun _ => rfl⟩

lemma extractStep_reg_spill (st : ExtractState) (e : TarEntry)
    (h : e.typeflag = TarType.reg)
    (hin : ¬ (st.currentRamUsage + e.size < MaxMemoryUsage)) :
    (extractStep st e).files = st.files ++
        [{ name := e.name, data := none, diskPath := some (st.spillCount + 1), mode := e.mode,
           modTime := e.modTime, isDir := false, isLink := false, linkDest := [] }] ∧
    (extractStep st e).currentRamUsage = st.currentRamUsage ∧
    (extractStep st e).spillCount = st.spillCount + 1 ∧
    (extractStep st e).infoPlistData = st.infoPlistData := by
  simp only [extractStep, h]
  rw [if_neg hin]
  dsimp only
  have hc : ¬ (plistNeedle.isSuffixOf e.name = true ∧ 0 < ([] : Bytes).length) := by
    rintro ⟨-, h2⟩
    simp at h2
  rw [if_neg hc]
  exact ⟨rfl, rfl, rfl, rfl⟩

lemma extractStep_symlink (st : ExtractState) (e : TarEntry)
    (h : e.typeflag = TarType.symlink) :
    (extractStep st e).files = st.files ++
        [{ name := e.name, data := none, diskPath := none, mode := e.mode,
           modTime := e.modTime, isDir := false, isLink := true, linkDest := e.linkname }] ∧
    (extractStep st e).currentRamUsage = st.currentRamUsage ∧
    (extractStep st e).spillCount = st.spillCount ∧
    (extractStep st e).infoPlistData = st.infoPlistData := by
  simp only [extractStep, h]
  refine ⟨?_, ?_, ?_, ?_⟩ <;> trivial

lemma extractStep_dir (st : ExtractState) (e : TarEntry)
    (h : e.typeflag = TarType.dir) :
    (extractStep st e).files = st.files ++
        [{ name := e.name, data := none, diskPath := none, mode := e.mode,
           modTime := e.modTime, isDir := true, isLink := false, linkDest := [] }] ∧
    (extractStep st e).currentRamUsage = st.currentRamUsage ∧
    (extractStep st e).spillCount = st.spillCount ∧
    (extractStep st e).infoPlistData = st.infoPlistData := by
  simp only [extractStep, h]
  refine ⟨?_, ?_, ?_, ?_⟩ <;> trivial

lemma extractStep_other (st : ExtractState) (e : TarEntry)
    (h : e.typeflag = TarType.other) :
    (extractStep st e).files = st.files ∧
    (extractStep st e).currentRamUsage = st.currentRamUsage ∧
    (extractStep st e).spillCount = st.spillCount ∧
    (extractStep st e).infoPlistData = st.infoPlistData := by
  simp only [extractStep, h]
  refine ⟨?_, ?_, ?_, ?_⟩ <;> trivial

lemma annotate_cons_reg_ram (r : Nat) (e : TarEntry) (es : List TarEntry)
    (h : e.typeflag = TarType.reg) (hin : r + e.size < MaxMemoryUsage) :
    annotate r (e :: es) = (e, true) :: annotate (r + e.fileData.length) es := by
  simp only [annotate, h]
  rw [if_pos hin]

lemma annotate_cons_reg_spill (r : Nat) (e : TarEntry) (es : List TarEntry)
    (h : e.typeflag = TarType.reg) (hin : ¬ (r + e.size < MaxMemoryUsage)) :
    annotate r (e :: es) = (e, false) :: annotate r es := by
  simp only [annotate, h]
  rw [if_neg hin]

lemma annotate_cons_nonreg (r : Nat) (e : TarEntry) (es : List TarEntry)
    (h : ¬ e.typeflag = TarType.reg) :
    annotate r (e :: es) = (e, false) :: annotate r es := by
  cases ht : e.typeflag with
  | reg => exact absurd ht h
  | dir => simp only [annotate, ht]
  | symlink => simp only [annotate, ht]
  | other => simp only [annotate, ht]

lemma plistQual_false_of_flag (e : TarEntry) :
    plistQual (e, false) = false := by
  apply decide_eq_false
  rintro ⟨-, -, hb, -⟩
  exact Bool.noConfusion hb

lemma plist_capture_general (es : List TarEntry) :
    ∀ st : ExtractState,
      (es.foldl extractStep st).infoPlistData =
        match ((annotate st.currentRamUsage es).filter plistQual).getLast? with
        | some p => some p.1.fileData
        | none => st.infoPlistData := by
  induction es with
  | nil => intro st; rfl
  | cons e es ih =>
    intro st
    rw [List.foldl_cons, ih (extractStep st e)]
    cases ht : e.typeflag with
    | reg =>
      by_cases hin : st.currentRamUsage + e.size < MaxMemoryUsage
      · obtain ⟨-, hram, -, hcap, hskip⟩ := extractStep_reg_ram st e ht hin
        rw [hram, annotate_cons_reg_ram st.currentRamUsage e es ht hin, List.filter_cons]
        by_cases hc : plistNeedle.isSuffixOf e.name = true ∧ 0 < e.fileData.length
        · have hq : plistQual (e, true) = true :=
            decide_eq_true ⟨ht, hc.1, rfl, hc.2⟩
          rw [if_pos hq, List.getLast?_cons]
          cases hl : ((annotate (st.currentRamUsage + e.fileData.length) es).filter
              plistQual).getLast? with
          | none => simp [hcap hc]
          | some q => simp
        · have hq : plistQual (e, true) = false := by
            apply decide_eq_false
            rintro ⟨-, h1, -, h2⟩
            exact hc ⟨h1, h2⟩
          rw [if_neg (by rw [hq]; exact Bool.noConfusion), hskip hc]
      · obtain ⟨-, hram, -, hinfo⟩ := extractStep_reg_spill st e ht hin
        rw [hram, annotate_cons_reg_spill st.currentRamUsage e es ht hin, List.filter_cons,
          if_neg (by rw [plistQual_false_of_flag]; exact Bool.noConfusion), hinfo]
    | dir =>
      obtain ⟨-, hram, -, hinfo⟩ := extractStep_dir st e ht
      rw [hram,
        annotate_cons_nonreg st.currentRamUsage e es (by rw [ht]; exact fun hx => TarType.noConfusion hx),
        List.filter_cons, if_neg (by rw [plistQual_false_of_flag]; exact Bool.noConfusion), hinfo]
    | symlink =>
      obtain ⟨-, hram, -, hinfo⟩ := extractStep_symlink st e ht
      rw [hram,
        annotate_cons_nonreg st.currentRamUsage e es (by rw [ht]; exact fun hx => TarType.noConfusion hx),
        List.filter_cons, if_neg (by rw [plistQual_false_of_flag]; exact Bool.noConfusion), hinfo]
    | other =>
      obtain ⟨-, hram, -, hinfo⟩ := extractStep_other st e ht
      rw [hram,
        annotate_cons_nonreg st.currentRamUsage e es (by rw [ht]; exact fun hx => TarType.noConfusion hx),
        List.filter_cons, if_neg (by rw [plistQual_false_of_flag]; exact Bool.noConfusion), hinfo]

lemma store_invariant (es : List TarEntry) :
    ∀ st : ExtractState,
      (∀ vf ∈ st.files, vf.isDir = false → vf.isLink = false →
        ((vf.data.isSome = true ∧ vf.diskPath = none) ∨
         (vf.data = none ∧ vf.diskPath.isSome = true))) →
      (∀ n ∈ st.files.filterMap VirtualFile.diskPath, n ≤ st.spillCount) →
      (st.files.filterMap VirtualFile.diskPath).Nodup →
      ((∀ vf ∈ (es.foldl extractStep st).files, vf.isDir = false → vf.isLink = false →
          ((vf.data.isSome = true ∧ vf.diskPath = none) ∨
           (vf.data = none ∧ vf.diskPath.isSome = true))) ∧
       (∀ n ∈ ((es.foldl extractStep st).files.filterMap VirtualFile.diskPath),
          n ≤ (es.foldl extractStep st).spillCount) ∧
       ((es.foldl extractStep st).files.filterMap VirtualFile.diskPath).Nodup) := by
  induction es with
  | nil => intro st h1 h2 h3; exact ⟨h1, h2, h3⟩
  | cons e es ih =>
    intro st h1 h2 h3
    rw [List.foldl_cons]
    cases ht : e.typeflag with
    | reg =>
      by_cases hin : st.currentRamUsage + e.size < MaxMemoryUsage
      · obtain ⟨hf, -, hsp, -⟩ := extractStep_reg_ram st e ht hin
        have hfm : (List.filterMap VirtualFile.diskPath
            [{ name := e.name, data := some e.fileData, diskPath := none, mode := e.mode,
               modTime := e.modTime, isDir := false, isLink := false,
               linkDest := [] }]) = [] := rfl
        apply ih
        · intro vf hm hd hl
          rw [hf] at hm
          rcases List.mem_append.mp hm with hm | hm
          · exact h1 vf hm hd hl
          · cases List.mem_singleton.mp hm
            left
            exact ⟨rfl, rfl⟩
        · intro n hn
          rw [hf, List.filterMap_append, hfm, List.append_nil] at hn
          rw [hsp]
          exact h2 n hn
        · rw [hf, List.filterMap_append, hfm, List.append_nil]
          exact h3
      · obtain ⟨hf, -, hsp, -⟩ := extractStep_reg_spill st e ht hin
        have hfm : (List.filterMap VirtualFile.diskPath
            [{ name := e.name, data := none, diskPath := some (st.spillCount + 1),
               mode := e.mode, modTime := e.modTime, isDir := false, isLink := false,
               linkDest := [] }]) = [st.spillCount + 1] := rfl
        apply ih
        · intro vf hm hd hl
          rw [hf] at hm
          rcases List.mem_append.mp hm with hm | hm
          · exact h1 vf hm hd hl
          · cases List.mem_singleton.mp hm
            right
            exact ⟨rfl, rfl⟩
        · intro n hn
          rw [hf, List.filterMap_append, hfm] at hn
          rw [hsp]
          rcases List.mem_append.mp hn with hn | hn
          · exact Nat.le_trans (h2 n hn) (Nat.le_succ _)
          · rw [List.mem_singleton.mp hn]
        · rw [hf, List.filterMap_append, hfm, List.nodup_append]
          refine ⟨h3, List.nodup_singleton _, ?_⟩
          intro a ha hb
          rw [List.mem_singleton.mp hb] at ha
          have := h2 _ ha
          omega
    | symlink =>
      obtain ⟨hf, -, hsp, -⟩ := extractStep_symlink st e ht
      have hfm : (List.filterMap VirtualFile.diskPath
          [{ name := e.name, data := none, diskPath := none, mode := e.mode,
             modTime := e.modTime, isDir := false, isLink := true,
             linkDest := e.linkname }]) = [] := rfl
      apply ih
      · intro vf hm hd hl
        rw [hf] at hm
        rcases List.mem_append.mp hm with hm | hm
        · exact h1 vf hm hd hl
        · cases List.mem_singleton.mp hm
          exact Bool.noConfusion hl
      · intro n hn
        rw [hf, List.filterMap_append, hfm, List.append_nil] at hn
        rw [hsp]
        exact h2 n hn
      · rw [hf, List.filterMap_append, hfm, List.append_nil]
        exact h3
    | dir =>
      obtain ⟨hf, -, hsp, -⟩ := extractStep_dir st e ht
      have hfm : (List.filterMap VirtualFile.diskPath
          [{ name := e.name, data := none, diskPath := none, mode := e.mode,
             modTime := e.modTime, isDir := true, isLink := false,
             linkDest := [] }]) = [] := rfl
      apply ih
      · intro vf hm hd hl
        rw [hf] at hm
        rcases List.mem_append.mp hm with hm | hm
        · exact h1 vf hm hd hl
        · cases List.mem_singleton.mp hm
          exact Bool.noConfusion hd
      · intro n hn
        rw [hf, List.filterMap_append, hfm, List.append_nil] at hn
        rw [hsp]
        exact h2 n hn
      · rw [hf, List.filterMap_append, hfm, List.append_nil]
        exact h3
    | other =>
      obtain ⟨hf, -, hsp, -⟩ := extractStep_other st e ht
      apply ih
      · intro vf hm hd hl
        rw [hf] at hm
        exact h1 vf hm hd hl
      · intro n hn
        rw [hf] at hn
        rw [hsp]
        exact h2 n hn
      · rw [hf]
        exact h3

/-- C3: for a regular tar entry the placement is decided, at that entry's turn, solely by `currentRamUsage + size < MaxMemoryUsage` over the state at hand (no sticky flag): the in-RAM branch stores an owned buffer, no spill path, and adds the buffer length to the RAM counter; the spill branch stores no buffer, records the next fresh spill path, and leaves the RAM counter alone. In the finished store every regular entry carries exactly one of buffer or spill path, and the recorded spill paths are pairwise distinct. -/
theorem ram_spill_spec :
    (∀ (st : ExtractState) (e : TarEntry), e.typeflag = TarType.reg →
      st.currentRamUsage + e.size < MaxMemoryUsage →
      ∃ vf, (extractStep st e).files = st.files ++ [vf] ∧
        vf.data = some e.fileData ∧ vf.diskPath = none ∧
        (extractStep st e).currentRamUsage = st.currentRamUsage + e.fileData.length ∧
        (extractStep st e).spillCount = st.spillCount) ∧
    (∀ (st : ExtractState) (e : TarEntry), e.typeflag = TarType.reg →
      ¬ (st.currentRamUsage + e.size < MaxMemoryUsage) →
      ∃ vf, (extractStep st e).files = st.files ++ [vf] ∧
        vf.data = none ∧ vf.diskPath = some (st.spillCount + 1) ∧
        (extractStep st e).currentRamUsage = st.currentRamUsage ∧
        (extractStep st e).spillCount = st.spillCount + 1) ∧
    (∀ es : List TarEntry, ∀ vf ∈ (extract es).files,
      vf.isDir = false → vf.isLink = false →
      ((vf.data.isSome = true ∧ vf.diskPath = none) ∨
       (vf.data = none ∧ vf.diskPath.isSome = true))) ∧
    (∀ es : List TarEntry, ((extract es).files.filterMap VirtualFile.diskPath).Nodup) := by
  refine ⟨?_, ?_, ?_, ?_⟩
  · intro st e h hin
    obtain ⟨hf, hr, hs, -⟩ := extractStep_reg_ram st e h hin
    exact ⟨_, hf, rfl, rfl, hr, hs⟩
  · intro st e h hin
    obtain ⟨hf, hr, hs, -⟩ := extractStep_reg_spill st e h hin
    exact ⟨_, hf, rfl, rfl, hr, hs⟩
  · intro es
    exact (store_invariant es initState
      (by intro vf hm _ _; simp [initState] at hm)
      (by intro n hn; simp [initState] at hn)
      (by simp [initState])).1
  · intro es
    exact (store_invariant es initState
      (by intro vf hm _ _; simp [initState] at hm)
      (by intro n hn; simp [initState] at hn)
      (by simp [initState])).2.2

/-- Witness for C3: a 1-byte entry is held in RAM, a 2 GiB entry is spilled; the resulting store entry carries exactly one content source, and the spill paths of a concrete run are distinct. -/
theorem ram_spill_spec_w :
    (∃ vf, (extractStep initState
        { name := "A.app/a".toList, mode := 420, size := 1, fileData := [7],
          typeflag := TarType.reg, linkname := [], modTime := 0 }).files =
          initState.files ++ [vf] ∧
        vf.data = some [7] ∧ vf.diskPath = none ∧
        (extractStep initState
          { name := "A.app/a".toList, mode := 420, size := 1, fileData := [7],
            typeflag := TarType.reg, linkname := [], modTime := 0 }).currentRamUsage =
          initState.currentRamUsage + ([7] : Bytes).length ∧
        (extractStep initState
          { name := "A.app/a".toList, mode := 420, size := 1, fileData := [7],
            typeflag := TarType.reg, linkname := [], modTime := 0 }).spillCount =
          initState.spillCount) ∧
    (∃ vf, (extractStep initState
        { name := "A.app/big".toList, mode := 420, size := 2147483648, fileData := [],
          typeflag := TarType.reg, linkname := [], modTime := 0 }).files =
          initState.files ++ [vf] ∧
        vf.data = none ∧ vf.diskPath = some (initState.spillCount + 1) ∧
        (extractStep initState
          { name := "A.app/big".toList, mode := 420, size := 2147483648, fileData := [],
            typeflag := TarType.reg, linkname := [], modTime := 0 }).currentRamUsage =
          initState.currentRamUsage ∧
        (extractStep initState
          { name := "A.app/big".toList, mode := 420, size := 2147483648, fileData := [],
            typeflag := TarType.reg, linkname := [], modTime := 0 }).spillCount =
          initState.spillCount + 1) ∧
    ((({ name := "A.app/big".toList, data := none, diskPath := some 1, mode := 420,
         modTime := 0, isDir := false, isLink := false,
         linkDest := [] } : VirtualFile).data.isSome = true ∧
      ({ name := "A.app/big".toList, data := none, diskPath := some 1, mode := 420,
         modTime := 0, isDir := false, isLink := false,
         linkDest := [] } : VirtualFile).diskPath = none) ∨
     (({ name := "A.app/big".toList, data := none, diskPath := some 1, mode := 420,
         modTime := 0, isDir := false, isLink := false,
         linkDest := [] } : VirtualFile).data = none ∧
      ({ name := "A.app/big".toList, data := none, diskPath := some 1, mode := 420,
         modTime := 0, isDir := false, isLink := false,
         linkDest := [] } : VirtualFile).diskPath.isSome = true)) ∧
    ((extract [{ name := "A.app/big".toList, mode := 420, size := 2147483648, fileData := [], typeflag := TarType.reg, linkname := [], modTime := 0 }]).files.filterMap
      VirtualFile.diskPath).Nodup := by
  refine ⟨?_, ?_, ?_, ?_⟩
  · exact ram_spill_spec.1 initState
      { name := "A.app/a".toList, mode := 420, size := 1, fileData := [7],
        typeflag := TarType.reg, linkname := [], modTime := 0 } rfl (by decide)
  · exact ram_spill_spec.2.1 initState
      { name := "A.app/big".toList, mode := 420, size := 2147483648, fileData := [],
        typeflag := TarType.reg, linkname := [], modTime := 0 } rfl (by decide)
  · exact ram_spill_spec.2.2.1
      [{ name := "A.app/big".toList, mode := 420, size := 2147483648, fileData := [], typeflag := TarType.reg, linkname := [], modTime := 0 }]
      { name := "A.app/big".toList, data := none, diskPath := some 1, mode := 420,
        modTime := 0, isDir := false, isLink := false, linkDest := [] }
      (by decide) rfl rfl
  · exact ram_spill_spec.2.2.2
      [{ name := "A.app/big".toList, mode := 420, size := 2147483648, fileData := [], typeflag := TarType.reg, linkname := [], modTime := 0 }]

/-- C9: the bytes handed to the metadata parser are those of the last regular entry, in traversal order, whose name ends in `Info.plist`, that was placed in RAM with a non-empty buffer; spilled or empty qualifying entries never overwrite a previous capture. -/
theorem plist_capture_last_spec (es : List TarEntry) :
    (extract es).infoPlistData =
      (((annotate 0 es).filter plistQual).getLast?).map (fun p => p.1.fileData) := by
  have h := plist_capture_general es initState
  have h0 : initState.currentRamUsage = 0 := rfl
  have h1 : initState.infoPlistData = none := rfl
  rw [h0, h1] at h
  rw [show (extract es).infoPlistData = (es.foldl extractStep initState).infoPlistData from rfl, h]
  cases hl : ((annotate 0 es).filter plistQual).getLast? with
  | none => rfl
  | some p => rfl

/-- C4 counterexample: the claim "an Info.plist entry placed in RAM has its bytes captured" fails for an empty Info.plist placed in RAM: the code requires a non-empty buffer, so an earlier capture survives instead of the empty bytes. -/
theorem plist_capture_claim_cex :
    ¬ (∀ (st : ExtractState) (e : TarEntry),
        e.typeflag = TarType.reg →
        plistNeedle.isSuffixOf e.name = true →
        st.currentRamUsage + e.size < MaxMemoryUsage →
        (extractStep st e).infoPlistData = some e.fileData) := by
  intro h
  have hx := h
    { files := [], currentRamUsage := 0, totalSize := 0, spillCount := 0,
      appRoot := none, infoPlistData := some [1] }
    { name := "Foo.app/Info.plist".toList, mode := 420, size := 0, fileData := [],
      typeflag := TarType.reg, linkname := [], modTime := 0 }
    rfl (by decide) (by decide)
  exact absurd hx (by decide)

/-- C4 (amended): for a regular entry, the capture of metadata bytes happens exactly when the entry is placed in RAM with a non-empty buffer and its name ends in `Info.plist`; a spilled entry, or one placed in RAM with an empty buffer, leaves the previous capture unchanged. -/
theorem plist_capture_step_spec (st : ExtractState) (e : TarEntry)
    (h : e.typeflag = TarType.reg) :
    ((st.currentRamUsage + e.size < MaxMemoryUsage →
        ((plistNeedle.isSuffixOf e.name = true ∧ 0 < e.fileData.length →
            (extractStep st e).infoPlistData = some e.fileData) ∧
         (¬ (plistNeedle.isSuffixOf e.name = true ∧ 0 < e.fileData.length) →
            (extractStep st e).infoPlistData = st.infoPlistData))) ∧
     (¬ (st.currentRamUsage + e.size < MaxMemoryUsage) →
        (extractStep st e).infoPlistData = st.infoPlistData)) := by
  constructor
  · intro hin
    exact (extractStep_reg_ram st e h hin).2.2.2
  · intro hin
    exact (extractStep_reg_spill st e h hin).2.2.2

/-- Witness for C4's amended theorem: a non-empty Info.plist in RAM is captured; a spilled one leaves the capture alone. -/
theorem plist_capture_step_spec_w :
    (extractStep initState
      { name := "Foo.app/Info.plist".toList, mode := 420, size := 1, fileData := [9],
        typeflag := TarType.reg, linkname := [], modTime := 0 }).infoPlistData = some [9] ∧
    (extractStep initState
      { name := "Foo.app/Info.plist".toList, mode := 420, size := 2147483648, fileData := [],
        typeflag := TarType.reg, linkname := [], modTime := 0 }).infoPlistData =
      initState.infoPlistData := by
  constructor
  · exact ((plist_capture_step_spec initState
      { name := "Foo.app/Info.plist".toList, mode := 420, size := 1, fileData := [9],
        typeflag := TarType.reg, linkname := [], modTime := 0 } rfl).1
      (by decide)).1 ⟨by decide, by decide⟩
  · exact (plist_capture_step_spec initState
      { name := "Foo.app/Info.plist".toList, mode := 420, size := 2147483648, fileData := [],
        typeflag := TarType.reg, linkname := [], modTime := 0 } rfl).2 (by decide)

/-- C6: when the first `data.tar`-prefixed member's name matches none of the suffixes `.gz`, `.lzma`, `.bzip2`, `.xz`, the conversion stops with the unsupported-compression error before any output value is produced. -/
theorem unsupported_compression_spec
    (dx : Bytes → Option PlistDict) (p : Str) (ms : List ArMember) (m : ArMember)
    (hfind : findDataTar ms = some m)
    (h1 : ".gz".toList.isSuffixOf m.name = false)
    (h2 : ".lzma".toList.isSuffixOf m.name = false)
    (h3 : ".bzip2".toList.isSuffixOf m.name = false)
    (h4 : ".xz".toList.isSuffixOf m.name = false) :
    convert dx p ms = Except.error ConvError.unsupportedCompression := by
  have hd : dispatch m.name = Except.error ConvError.unsupportedCompression := by
    unfold dispatch
    rw [h1, h2, h3, h4]
    rfl
  unfold convert
  simp only [hfind, hd]

/-- Witness for C6: a `data.tar.zst` payload member makes the conversion fail with the unsupported-compression error. -/
theorem unsupported_compression_spec_w :
    convert (fun _ => none) "a.deb".toList
      [{ name := "data.tar.zst".toList, entries := [] }] =
      Except.error ConvError.unsupportedCompression :=
  unsupported_compression_spec (fun _ => none) "a.deb".toList
    [{ name := "data.tar.zst".toList, entries := [] }]
    { name := "data.tar.zst".toList, entries := [] }
    (by decide) (by decide) (by decide) (by decide) (by decide)

end DebToIPA
